import Mathlib

/-!
# SplitBill allocation engine: a shallow embedding

This file embeds the bill-splitting core of `src/pages/index.vue` in Lean:
the receipt model (items, tax, total and their setters), the sparse
item → participant → share assignment map together with its mutation
operations, and the allocation engine (`participantTotals` live preview and
`calculateSplit` final settlement).

JavaScript numbers are modelled as exact rationals (`ℚ`); `parseFloat`
results are modelled as `Option ℚ` with `none` standing for `NaN`.
JS objects keyed by numeric indices (`Record<number, number>` and
`Record<number, Record<number, number>>`) are modelled as association
lists with first-match lookup; a JS object cannot hold a duplicate key, so
states reachable in the program always have `Nodup` key lists.
A JS truthiness test on a numeric map value (`!assignments[p]`) holds
exactly when the looked-up value is absent or `0`, which is captured by
the defaulted lookup `pget`.
-/

namespace SplitBill

/-- `Array.prototype.reduce((sum, x) => sum + x, 0)` over rationals. -/
def jsSum (l : List ℚ) : ℚ := l.foldl (fun s q => s + q) 0

/-- `String.prototype.trim()`: strip whitespace from both ends, written
structurally over the character list so that it computes by kernel
reduction. -/
def jsTrim (s : String) : String :=
  ⟨((s.data.dropWhile Char.isWhitespace).reverse.dropWhile Char.isWhitespace).reverse⟩

/-- First-match lookup in an association list, i.e. JS property read `o[k]`. -/
def lookupKey {β : Type} : List (ℕ × β) → ℕ → Option β
  | [], _ => none
  | e :: l, k => if e.1 = k then some e.2 else lookupKey l k

/-- JS property write `o[k] = v`: overwrite the entry when the key is
present, append it otherwise. -/
def setKey {β : Type} (l : List (ℕ × β)) (k : ℕ) (v : β) : List (ℕ × β) :=
  if (lookupKey l k).isSome then
    l.map (fun e => if e.1 = k then (k, v) else e)
  else
    l ++ [(k, v)]

/-- JS property deletion `delete o[k]`. -/
def eraseKey {β : Type} (l : List (ℕ × β)) (k : ℕ) : List (ℕ × β) :=
  l.filter (fun e => e.1 ≠ k)

/-- Per-item assignment map: `Record<participantIndex, quantityShare>`. -/
abbrev PMap := List (ℕ × ℚ)

/-- Whole assignment map: `Record<itemIndex, Record<participantIndex, share>>`. -/
abbrev AMap := List (ℕ × PMap)

/-- `assignments[p] || 0`: a missing (or stored-zero) share reads as `0`. -/
def pget (m : PMap) (p : ℕ) : ℚ := (lookupKey m p).getD 0

/-- `itemAssignments[i] || {}`: a missing per-item map reads as empty. -/
def aget (M : AMap) (i : ℕ) : PMap := (lookupKey M i).getD []

/-- Key lists at both levels are duplicate-free, as they are for every
state representable by a JS object. -/
def WellFormedA (M : AMap) : Prop :=
  (M.map Prod.fst).Nodup ∧ ∀ ia ∈ M, (ia.2.map Prod.fst).Nodup

/-! ## Receipt model -/

/-- `ReceiptItem` of `index.vue`. -/
structure ReceiptItem where
  name : String
  quantity : ℚ
  price : ℚ
deriving DecidableEq

/-- `Receipt` of `index.vue`. -/
structure Receipt where
  items : List ReceiptItem
  tax : ℚ
  total : ℚ
deriving DecidableEq

/-- `items.reduce((sum, item) => sum + item.price * item.quantity, 0)`,
the subtotal expression shared by `recalculateTotal`, `participantTotals`
and `calculateSplit`. -/
def subtotalOf (r : Receipt) : ℚ :=
  jsSum (r.items.map (fun item => item.price * item.quantity))

/-- `recalculateTotal`: `receipt.total = subtotal + (receipt.tax || 0)`. -/
def recalculateTotal (r : Receipt) : Receipt :=
  { r with total := subtotalOf r + r.tax }

/-- `updateItemQuantity(index, quantity)`: in-bounds guard
(`receipt.value.items[index]` truthy), `parseFloat` modelled by the
`Option ℚ` argument, rejection of `NaN` and of values `≤ 0`. -/
def updateItemQuantity (r : Receipt) (index : ℕ) (value : Option ℚ) : Receipt :=
  match r.items.get? index with
  | none => r
  | some item =>
    match value with
    | none => r
    | some parsedQuantity =>
      if parsedQuantity > 0 then
        recalculateTotal { r with
          items := r.items.set index { item with quantity := parsedQuantity } }
      else r

/-- `updateItemPrice(index, price)`: as the quantity setter but rejecting
only negative values (`parsedPrice >= 0` accepted). -/
def updateItemPrice (r : Receipt) (index : ℕ) (value : Option ℚ) : Receipt :=
  match r.items.get? index with
  | none => r
  | some item =>
    match value with
    | none => r
    | some parsedPrice =>
      if parsedPrice ≥ 0 then
        recalculateTotal { r with
          items := r.items.set index { item with price := parsedPrice } }
      else r

/-- `updateTax(tax)`: reject `NaN` and negative values, else store and
recompute the total. -/
def updateTax (r : Receipt) (value : Option ℚ) : Receipt :=
  match value with
  | none => r
  | some parsedTax =>
    if parsedTax ≥ 0 then
      recalculateTotal { r with tax := parsedTax }
    else r

/-! ## Assignment mutation operations -/

/-- `assignItemToSelected(itemIndex)` with the selected participant made
explicit: ensure the per-item map exists, then claim one unit only when
the current share is falsy (absent or zero). -/
def assignItemToSelected (itemIndex participantIndex : ℕ) (M : AMap) : AMap :=
  let M1 := if (lookupKey M itemIndex).isSome then M else setKey M itemIndex []
  let assignments := aget M1 itemIndex
  if pget assignments participantIndex = 0 then
    setKey M1 itemIndex (setKey assignments participantIndex 1)
  else M1

/-- `increaseItemQuantity(itemIndex, participantIndex)`. -/
def increaseItemQuantity (itemIndex participantIndex : ℕ) (M : AMap) : AMap :=
  let M1 := if (lookupKey M itemIndex).isSome then M else setKey M itemIndex []
  let assignments := aget M1 itemIndex
  let currentQty := pget assignments participantIndex
  setKey M1 itemIndex (setKey assignments participantIndex (currentQty + 1))

/-- `decreaseItemQuantity(itemIndex, participantIndex)`: decrement a share
above `1`, delete the entry at exactly `1`, otherwise do nothing. -/
def decreaseItemQuantity (itemIndex participantIndex : ℕ) (M : AMap) : AMap :=
  match lookupKey M itemIndex with
  | none => M
  | some assignments =>
    let currentQty := pget assignments participantIndex
    if currentQty > 1 then
      setKey M itemIndex (setKey assignments participantIndex (currentQty - 1))
    else if currentQty = 1 then
      setKey M itemIndex (eraseKey assignments participantIndex)
    else M

/-- `removeAssignment(itemIndex, participantIndex)`: unconditional delete. -/
def removeAssignment (itemIndex participantIndex : ℕ) (M : AMap) : AMap :=
  match lookupKey M itemIndex with
  | none => M
  | some assignments => setKey M itemIndex (eraseKey assignments participantIndex)

/-- The four assignment-map mutation primitives. -/
inductive AssignOp where
  | assign (itemIndex participantIndex : ℕ)
  | increase (itemIndex participantIndex : ℕ)
  | decrease (itemIndex participantIndex : ℕ)
  | unassign (itemIndex participantIndex : ℕ)
deriving DecidableEq

/-- One step of the assignment state machine. -/
def applyOp (M : AMap) : AssignOp → AMap
  | .assign i p => assignItemToSelected i p M
  | .increase i p => increaseItemQuantity i p M
  | .decrease i p => decreaseItemQuantity i p M
  | .unassign i p => removeAssignment i p M

/-- Run a sequence of mutations from the empty assignment map. -/
def runOps (ops : List AssignOp) : AMap := ops.foldl applyOp []

/-- Every share stored anywhere in the map is strictly positive. -/
def StoredPositive (M : AMap) : Prop :=
  ∀ ia ∈ M, ∀ pq ∈ ia.2, (0 : ℚ) < pq.2

/-! ## Allocation engine -/

/-- The per-item cost distribution common to `participantTotals` and
`calculateSplit`: read the participant's share (`assignments[pIndex] || 0`),
contribute nothing unless it is positive, and otherwise take the
proportional part `(quantity / totalAssignedQty) * (price * quantity)`,
guarding a zero total assigned quantity with `0`. -/
def itemCostOf (item : ReceiptItem) (assignments : PMap) (pIndex : ℕ) : ℚ :=
  let quantity := pget assignments pIndex
  if quantity > 0 then
    let totalAssignedQty := jsSum (assignments.map Prod.snd)
    let totalItemCost := item.price * item.quantity
    if totalAssignedQty > 0 then (quantity / totalAssignedQty) * totalItemCost
    else 0
  else 0

/-- One record of the live preview `participantTotals`. -/
structure PreviewEntry where
  name : String
  total : ℚ
  itemsTotal : ℚ
  taxPortion : ℚ
deriving DecidableEq

/-- The `participantTotals` computed property: one entry per participant
slot (blank names included), shares looked up at the participant's
original index, tax proportional to the share of the items subtotal. -/
def participantTotals (r : Receipt) (M : AMap) (participants : List String) :
    List PreviewEntry :=
  let subtotal := subtotalOf r
  participants.enum.map (fun pe =>
    let pIndex := pe.1
    let itemsTotal :=
      jsSum (r.items.enum.map (fun ie => itemCostOf ie.2 (aget M ie.1) pIndex))
    let taxPortion := if subtotal > 0 then (itemsTotal / subtotal) * r.tax else 0
    let total := itemsTotal + taxPortion
    { name := jsTrim pe.2, total := total, itemsTotal := itemsTotal,
      taxPortion := taxPortion })

/-- `Math.round(x)` on an exact rational: round half toward `+∞`. -/
def jsRound (x : ℚ) : ℤ := ⌊x + 1/2⌋

/-- `Math.round(x * 100) / 100`: rounding to two decimal places. -/
def round2 (x : ℚ) : ℚ := (jsRound (x * 100) : ℚ) / 100

/-- One audit line of a participant settlement. -/
structure SplitItemEntry where
  name : String
  cost : ℚ
  sharedWith : ℕ
deriving DecidableEq

/-- One participant's settlement in `SplitResults`. -/
structure ParticipantResult where
  name : String
  total : ℚ
  itemsTotal : ℚ
  taxPortion : ℚ
  items : List SplitItemEntry
deriving DecidableEq

/-- The final `SplitResults` structure. -/
structure SplitResults where
  participants : List ParticipantResult
  originalTotal : ℚ
  splitTotal : ℚ
  subtotal : ℚ
  tax : ℚ
deriving DecidableEq, Inhabited

/-- `calculateSplit`: refuse when no participant name survives trimming
(`none` models the early return with the error message); otherwise map
over the filtered participants — `pIndex` is the position in the
filtered list — accumulate per-item costs and audit lines, distribute the
tax proportionally, round each money field independently to two decimals,
and sum the already-rounded totals into `splitTotal`. -/
def calculateSplit (r : Receipt) (M : AMap) (participants : List String) :
    Option SplitResults :=
  let validParticipants := participants.filter (fun p => jsTrim p ≠ "")
  if validParticipants.isEmpty then none
  else
    let subtotal := subtotalOf r
    let results := validParticipants.enum.map (fun pe =>
      let pIndex := pe.1
      let itemsTotal :=
        jsSum (r.items.enum.map (fun ie => itemCostOf ie.2 (aget M ie.1) pIndex))
      let items := r.items.enum.filterMap (fun ie =>
        let assignments := aget M ie.1
        let quantity := pget assignments pIndex
        if quantity > 0 then
          some { name := ie.2.name ++ " (x" ++ toString quantity ++ ")",
                 cost := itemCostOf ie.2 assignments pIndex,
                 sharedWith := assignments.length : SplitItemEntry }
        else none)
      let taxPortion := if subtotal > 0 then (itemsTotal / subtotal) * r.tax else 0
      let total := itemsTotal + taxPortion
      { name := jsTrim pe.2, total := round2 total,
        itemsTotal := round2 itemsTotal, taxPortion := round2 taxPortion,
        items := items : ParticipantResult })
    some { participants := results, originalTotal := r.total,
           splitTotal := jsSum (results.map (fun p => p.total)),
           subtotal := subtotal, tax := r.tax }

/-! ## Participant removal -/

/-- `removeParticipant(index)`: guarded by `participants.length > 1`;
splice the name list and rebuild every per-item assignment map, skipping
the removed participant's entries and shifting higher indices down. -/
def removeParticipant (index : ℕ) (participants : List String) (M : AMap) :
    List String × AMap :=
  if 1 < participants.length then
    (participants.eraseIdx index,
     M.map (fun ia => (ia.1, ia.2.filterMap (fun pq =>
       if pq.1 ≠ index then
         some (if pq.1 > index then pq.1 - 1 else pq.1, pq.2)
       else none))))
  else (participants, M)

/-- The counterfactual assignment map in which participant `k` never
existed, stated from the spec's words: entries for `k` dropped, entries
with participant index greater than `k` shifted down by one, lower
indices unchanged. -/
def specDropParticipant (k : ℕ) (M : AMap) : AMap :=
  M.map (fun ia => (ia.1, ia.2.filterMap (fun pq =>
    if pq.1 = k then none
    else if k < pq.1 then some (pq.1 - 1, pq.2)
    else some pq)))

/-! ## Summation lemmas -/

theorem foldl_add_shift (l : List ℚ) (a : ℚ) :
    l.foldl (fun s q => s + q) a = a + l.foldl (fun s q => s + q) 0 := by
  induction l generalizing a with
  | nil => simp
  | cons x l ih =>
    simp only [List.foldl_cons]
    rw [ih (a + x), ih (0 + x)]
    ring

theorem jsSum_nil : jsSum [] = 0 := rfl

theorem jsSum_cons (x : ℚ) (l : List ℚ) : jsSum (x :: l) = x + jsSum l := by
  simp only [jsSum, List.foldl_cons]
  rw [foldl_add_shift]
  ring

theorem jsSum_map_congr {α : Type} (l : List α) (f g : α → ℚ)
    (h : ∀ x ∈ l, f x = g x) : jsSum (l.map f) = jsSum (l.map g) := by
  induction l with
  | nil => rfl
  | cons x l ih =>
    simp only [List.map_cons, jsSum_cons]
    rw [h x (by simp), ih (fun y hy => h y (by simp [hy]))]

theorem jsSum_map_mul_right {α : Type} (l : List α) (f : α → ℚ) (c : ℚ) :
    jsSum (l.map (fun x => f x * c)) = jsSum (l.map f) * c := by
  induction l with
  | nil => simp [jsSum_nil]
  | cons x l ih =>
    simp only [List.map_cons, jsSum_cons, ih]
    ring

theorem jsSum_map_zero {α : Type} (l : List α) :
    jsSum (l.map (fun _ => (0 : ℚ))) = 0 := by
  induction l with
  | nil => rfl
  | cons x l ih =>
    rw [List.map_cons, jsSum_cons, ih]
    ring

/-! ## Association-list lemmas -/

theorem lookupKey_mem {β : Type} {l : List (ℕ × β)} {k : ℕ} {v : β}
    (h : lookupKey l k = some v) : (k, v) ∈ l := by
  induction l with
  | nil => simp [lookupKey] at h
  | cons e l ih =>
    by_cases he : e.1 = k
    · simp only [lookupKey, if_pos he] at h
      obtain ⟨a, b⟩ := e
      obtain rfl : a = k := he
      obtain rfl : b = v := Option.some.inj h
      exact List.mem_cons_self _ _
    · simp only [lookupKey, if_neg he] at h
      exact List.mem_cons_of_mem _ (ih h)

theorem mem_setKey {β : Type} {l : List (ℕ × β)} {k : ℕ} {v : β} {x : ℕ × β}
    (h : x ∈ setKey l k v) : x ∈ l ∨ x = (k, v) := by
  unfold setKey at h
  by_cases hs : (lookupKey l k).isSome
  · rw [if_pos hs] at h
    rcases List.mem_map.1 h with ⟨e, he, hx⟩
    by_cases hek : e.1 = k
    · right
      simp [if_pos hek] at hx
      exact hx.symm
    · left
      simpa [if_neg hek, ← hx] using he
  · rw [if_neg hs] at h
    rcases List.mem_append.1 h with h | h
    · exact Or.inl h
    · exact Or.inr (by simpa using h)

theorem lookupKey_setKey_self {β : Type} (l : List (ℕ × β)) (k : ℕ) (v : β) :
    lookupKey (setKey l k v) k = some v := by
  unfold setKey
  by_cases hs : (lookupKey l k).isSome
  · rw [if_pos hs]
    induction l with
    | nil => simp [lookupKey] at hs
    | cons e l ih =>
      by_cases he : e.1 = k
      · simp [lookupKey, if_pos he]
      · simp only [lookupKey, if_neg he, List.map_cons, if_neg he] at hs ⊢
        exact ih hs
  · rw [if_neg hs]
    induction l with
    | nil => simp [lookupKey]
    | cons e l ih =>
      by_cases he : e.1 = k
      · simp [lookupKey, if_pos he] at hs
      · simp only [lookupKey, if_neg he, List.cons_append] at hs ⊢
        exact ih hs

theorem mem_eraseKey {β : Type} {l : List (ℕ × β)} {k : ℕ} {x : ℕ × β}
    (h : x ∈ eraseKey l k) : x ∈ l :=
  List.mem_of_mem_filter h

theorem lookupKey_eraseKey_self {β : Type} (l : List (ℕ × β)) (k : ℕ) :
    lookupKey (eraseKey l k) k = none := by
  induction l with
  | nil => rfl
  | cons e l ih =>
    by_cases he : e.1 = k
    · simpa [eraseKey, he] using ih
    · simpa [eraseKey, lookupKey, he] using ih

theorem eraseKey_of_lookupKey_none {β : Type} {l : List (ℕ × β)} {k : ℕ}
    (h : lookupKey l k = none) : eraseKey l k = l := by
  induction l with
  | nil => rfl
  | cons e l ih =>
    by_cases he : e.1 = k
    · simp [lookupKey, if_pos he] at h
    · simp only [lookupKey, if_neg he] at h
      simp [eraseKey, he, List.filter_cons]
      simpa [eraseKey] using ih h

theorem lookupKey_of_mem_nodup {β : Type} {l : List (ℕ × β)}
    (hnd : (l.map Prod.fst).Nodup) {k : ℕ} {v : β} (h : (k, v) ∈ l) :
    lookupKey l k = some v := by
  induction l with
  | nil => simp at h
  | cons e l ih =>
    simp only [List.map_cons, List.nodup_cons] at hnd
    rcases List.mem_cons.1 h with h | h
    · simp [lookupKey, ← h]
    · have hek : e.1 ≠ k := by
        intro hek
        exact hnd.1 (by
          rw [hek]
          exact List.mem_map.2 ⟨(k, v), h, rfl⟩)
      simp only [lookupKey, if_neg hek]
      exact ih hnd.2 h

theorem setKey_lookupKey_eq {β : Type} {l : List (ℕ × β)}
    (hnd : (l.map Prod.fst).Nodup) {k : ℕ} {v : β}
    (h : lookupKey l k = some v) : setKey l k v = l := by
  unfold setKey
  rw [if_pos (by simp [h])]
  induction l with
  | nil => rfl
  | cons e l ih =>
    simp only [List.map_cons, List.nodup_cons] at hnd
    by_cases he : e.1 = k
    · simp only [lookupKey, if_pos he] at h
      have hev : e = (k, v) := by
        obtain ⟨a, b⟩ := e
        obtain rfl : a = k := he
        obtain rfl : b = v := Option.some.inj h
        rfl
      have hkl : ∀ x ∈ l, (if x.1 = k then (k, v) else x) = x := by
        intro x hx
        have hxk : x.1 ≠ k := by
          intro hxk
          exact hnd.1 (by
            rw [he]
            exact List.mem_map.2 ⟨x, hx, hxk⟩)
        simp [hxk]
      simp only [List.map_cons, if_pos he]
      rw [hev, List.map_congr_left hkl]
      simp
    · simp only [lookupKey, if_neg he] at h
      simp only [List.map_cons, if_neg he]
      rw [ih hnd.2 h]

/-! ## Positivity of stored shares -/

theorem pget_nonneg (a : PMap) (h : ∀ pq ∈ a, (0 : ℚ) < pq.2) (p : ℕ) :
    0 ≤ pget a p := by
  unfold pget
  cases hl : lookupKey a p with
  | none => simp
  | some q => simpa using (h (p, q) (lookupKey_mem hl)).le

theorem entries_pos_aget {M : AMap} (h : StoredPositive M) (i : ℕ) :
    ∀ pq ∈ aget M i, (0 : ℚ) < pq.2 := by
  unfold aget
  cases hl : lookupKey M i with
  | none => simp
  | some a =>
    intro pq hpq
    exact h (i, a) (lookupKey_mem hl) pq (by simpa using hpq)

theorem entries_pos_setKey {a : PMap} (p : ℕ) {v : ℚ}
    (ha : ∀ pq ∈ a, (0 : ℚ) < pq.2) (hv : 0 < v) :
    ∀ pq ∈ setKey a p v, (0 : ℚ) < pq.2 := by
  intro pq hpq
  rcases mem_setKey hpq with h | h
  · exact ha pq h
  · rw [h]
    exact hv

theorem storedPositive_setKey {M : AMap} (i : ℕ) {a : PMap}
    (hM : StoredPositive M) (ha : ∀ pq ∈ a, (0 : ℚ) < pq.2) :
    StoredPositive (setKey M i a) := by
  intro ia hia
  rcases mem_setKey hia with h | h
  · exact hM ia h
  · rw [h]
    exact ha

theorem decrease_of_lookupKey_none {M : AMap} {i : ℕ} (p : ℕ)
    (h : lookupKey M i = none) : decreaseItemQuantity i p M = M := by
  simp [decreaseItemQuantity, h]

theorem decrease_of_lookupKey_some {M : AMap} {i : ℕ} (p : ℕ) {a : PMap}
    (h : lookupKey M i = some a) :
    decreaseItemQuantity i p M =
      (if pget a p > 1 then setKey M i (setKey a p (pget a p - 1))
       else if pget a p = 1 then setKey M i (eraseKey a p)
       else M) := by
  simp [decreaseItemQuantity, h]

theorem unassign_of_lookupKey_none {M : AMap} {i : ℕ} (p : ℕ)
    (h : lookupKey M i = none) : removeAssignment i p M = M := by
  simp [removeAssignment, h]

theorem unassign_of_lookupKey_some {M : AMap} {i : ℕ} (p : ℕ) {a : PMap}
    (h : lookupKey M i = some a) :
    removeAssignment i p M = setKey M i (eraseKey a p) := by
  simp [removeAssignment, h]

theorem storedPositive_applyOp (M : AMap) (op : AssignOp)
    (h : StoredPositive M) : StoredPositive (applyOp M op) := by
  cases op with
  | assign i p =>
    show StoredPositive (assignItemToSelected i p M)
    simp only [assignItemToSelected]
    split_ifs with h1 h2 h2
    · exact storedPositive_setKey i h
        (entries_pos_setKey p (entries_pos_aget h i) one_pos)
    · exact h
    · have hM1 : StoredPositive (setKey M i []) :=
        storedPositive_setKey i h (by simp)
      exact storedPositive_setKey i hM1
        (entries_pos_setKey p (entries_pos_aget hM1 i) one_pos)
    · exact storedPositive_setKey i h (by simp)
  | increase i p =>
    show StoredPositive (increaseItemQuantity i p M)
    simp only [increaseItemQuantity]
    split_ifs with h1
    · have hge : 0 ≤ pget (aget M i) p :=
        pget_nonneg (aget M i) (entries_pos_aget h i) p
      exact storedPositive_setKey i h
        (entries_pos_setKey p (entries_pos_aget h i) (by linarith))
    · have hM1 : StoredPositive (setKey M i []) :=
        storedPositive_setKey i h (by simp)
      have hge : 0 ≤ pget (aget (setKey M i []) i) p :=
        pget_nonneg (aget (setKey M i []) i) (entries_pos_aget hM1 i) p
      exact storedPositive_setKey i hM1
        (entries_pos_setKey p (entries_pos_aget hM1 i) (by linarith))
  | decrease i p =>
    show StoredPositive (decreaseItemQuantity i p M)
    cases hl : lookupKey M i with
    | none =>
      rw [decrease_of_lookupKey_none p hl]
      exact h
    | some a =>
      rw [decrease_of_lookupKey_some p hl]
      have ha : ∀ pq ∈ a, (0 : ℚ) < pq.2 :=
        fun pq hpq => h (i, a) (lookupKey_mem hl) pq hpq
      split_ifs with h1 h2
      · exact storedPositive_setKey i h
          (entries_pos_setKey p ha (by linarith))
      · exact storedPositive_setKey i h
          (fun pq hpq => ha pq (mem_eraseKey hpq))
      · exact h
  | unassign i p =>
    show StoredPositive (removeAssignment i p M)
    cases hl : lookupKey M i with
    | none =>
      rw [unassign_of_lookupKey_none p hl]
      exact h
    | some a =>
      rw [unassign_of_lookupKey_some p hl]
      exact storedPositive_setKey i h
        (fun pq hpq => h (i, a) (lookupKey_mem hl) pq (mem_eraseKey hpq))

theorem storedPositive_foldl (ops : List AssignOp) (M : AMap)
    (h : StoredPositive M) : StoredPositive (ops.foldl applyOp M) := by
  induction ops generalizing M with
  | nil => exact h
  | cons op ops ih =>
    rw [List.foldl_cons]
    exact ih _ (storedPositive_applyOp M op h)

/-! ## Engine projection lemmas -/

theorem participantTotals_length (r : Receipt) (M : AMap) (names : List String) :
    (participantTotals r M names).length = names.length := by
  simp [participantTotals]

theorem participantTotals_map_itemsTotal (r : Receipt) (M : AMap)
    (names : List String) :
    (participantTotals r M names).map (fun e => e.itemsTotal)
      = names.enum.map (fun pe =>
          jsSum (r.items.enum.map (fun ie => itemCostOf ie.2 (aget M ie.1) pe.1))) := by
  simp only [participantTotals]
  rw [List.map_map]
  rfl

theorem participantTotals_map_taxPortion (r : Receipt) (M : AMap)
    (names : List String) :
    (participantTotals r M names).map (fun e => e.taxPortion)
      = names.enum.map (fun pe =>
          if subtotalOf r > 0 then
            (jsSum (r.items.enum.map (fun ie => itemCostOf ie.2 (aget M ie.1) pe.1))
                / subtotalOf r) * r.tax
          else 0) := by
  simp only [participantTotals]
  rw [List.map_map]
  rfl

/-- With at least one trim-nonempty participant, the final settlement is
exactly the rounded live preview of the filtered participant list: the
settlement looks shares up by position in the filtered list. -/
theorem calculateSplit_proj (r : Receipt) (M : AMap) (ps : List String)
    (hne : (ps.filter (fun p => jsTrim p ≠ "")).isEmpty = false) :
    (calculateSplit r M ps).map (fun res =>
        res.participants.map (fun e => (e.name, e.itemsTotal, e.taxPortion, e.total)))
      = some ((participantTotals r M (ps.filter (fun p => jsTrim p ≠ ""))).map
          (fun e => (e.name, round2 e.itemsTotal, round2 e.taxPortion, round2 e.total))) := by
  simp only [calculateSplit, participantTotals, hne, Bool.false_eq_true, if_false,
    Option.map_some']
  rw [List.map_map, List.map_map]
  rfl

theorem calculateSplit_splitTotal (r : Receipt) (M : AMap) (ps : List String) :
    (calculateSplit r M ps).map (fun res => res.splitTotal)
      = (calculateSplit r M ps).map (fun res =>
          jsSum (res.participants.map (fun e => e.total))) := by
  cases hne : (ps.filter (fun p => jsTrim p ≠ "")).isEmpty
  · simp only [calculateSplit, hne, Bool.false_eq_true, if_false, Option.map_some']
  · simp only [calculateSplit, hne, if_true, Option.map_none']

theorem calculateSplit_originalTotal (r : Receipt) (M : AMap) (ps : List String) :
    (calculateSplit r M ps).map (fun res => res.originalTotal)
      = (calculateSplit r M ps).map (fun _ => r.total) := by
  cases hne : (ps.filter (fun p => jsTrim p ≠ "")).isEmpty
  · simp only [calculateSplit, hne, Bool.false_eq_true, if_false, Option.map_some']
  · simp only [calculateSplit, hne, if_true, Option.map_none']


theorem itemCostOf_of_pos {item : ReceiptItem} {a : PMap} {pq : ℕ × ℚ}
    (hnd : (a.map Prod.fst).Nodup) (hpq : pq ∈ a) (hqpos : 0 < pq.2)
    (hT : 0 < jsSum (a.map Prod.snd)) :
    itemCostOf item a pq.1
      = pq.2 * ((item.price * item.quantity) / jsSum (a.map Prod.snd)) := by
  have hlk : lookupKey a pq.1 = some pq.2 :=
    lookupKey_of_mem_nodup hnd (show (pq.1, pq.2) ∈ a by simpa using hpq)
  have hq : pget a pq.1 = pq.2 := by simp [pget, hlk]
  simp only [itemCostOf, hq, if_pos hqpos, if_pos hT]
  rw [div_mul_eq_mul_div, mul_div_assoc]

/-- Claim C1: for every item and per-item assignment map whose stored shares
are all positive (with duplicate-free keys, as for any JS object) and whose
total assigned quantity is strictly positive, the sum over all assigned
participants of the computed `itemCost = (share / totalAssignedQty) *
(quantity * price)` equals the item line total `price * quantity` exactly,
in exact rational arithmetic — regardless of whether the assigned
quantities under- or over-shoot the item nominal quantity. -/
theorem claim1_proportional_allocation (item : ReceiptItem) (a : PMap)
    (hpos : ∀ pq ∈ a, (0 : ℚ) < pq.2)
    (hnd : (a.map Prod.fst).Nodup)
    (hT : 0 < jsSum (a.map Prod.snd)) :
    jsSum (a.map (fun pq => itemCostOf item a pq.1)) = item.price * item.quantity := by
  have hstep : ∀ pq ∈ a, itemCostOf item a pq.1
      = pq.2 * ((item.price * item.quantity) / jsSum (a.map Prod.snd)) :=
    fun pq hpq => itemCostOf_of_pos hnd hpq (hpos pq hpq) hT
  rw [jsSum_map_congr a _ _ hstep,
    jsSum_map_mul_right a (fun pq => pq.2)
      ((item.price * item.quantity) / jsSum (a.map Prod.snd))]
  rw [show (a.map fun pq => pq.2) = a.map Prod.snd from rfl]
  rw [mul_comm, div_mul_cancel₀ _ (ne_of_gt hT)]

theorem claim1_witness :
    jsSum ((([(0, 1), (1, 2)]) : PMap).map (fun pq =>
        itemCostOf ⟨"Pizza", 1, 10⟩ [(0, 1), (1, 2)] pq.1))
      = (10 : ℚ) * 1 :=
  claim1_proportional_allocation ⟨"Pizza", 1, 10⟩ [(0, 1), (1, 2)]
    (by decide) (by decide) (by norm_num [jsSum])

theorem taxPortions_sum (r : Receipt) (M : AMap) (names : List String)
    (hs : 0 < subtotalOf r) :
    jsSum ((participantTotals r M names).map (fun e => e.taxPortion))
      = jsSum ((participantTotals r M names).map (fun e => e.itemsTotal))
          / subtotalOf r * r.tax := by
  rw [participantTotals_map_taxPortion, participantTotals_map_itemsTotal]
  have h1 : ∀ pe ∈ names.enum,
      (if subtotalOf r > 0 then
        (jsSum (r.items.enum.map (fun ie => itemCostOf ie.2 (aget M ie.1) pe.1))
            / subtotalOf r) * r.tax
      else 0)
      = jsSum (r.items.enum.map (fun ie => itemCostOf ie.2 (aget M ie.1) pe.1))
          * (r.tax / subtotalOf r) := by
    intro pe _
    rw [if_pos hs, div_mul_eq_mul_div, mul_div_assoc]
  rw [jsSum_map_congr _ _ _ h1,
    jsSum_map_mul_right _ _ (r.tax / subtotalOf r)]
  ring

def rUnclaimed : Receipt := ⟨[⟨"item", 1, 15⟩], 5, 20⟩

/-- Claim C2 is false as stated: for the receipt with one unclaimed item
(price 15, quantity 1) and tax 5, the subtotal is positive yet the sum of
all participants tax portions is 0, not the receipt tax. -/
theorem claim2_counterexample :
    0 < subtotalOf rUnclaimed ∧
    jsSum ((participantTotals rUnclaimed [] ["A"]).map (fun e => e.taxPortion))
      ≠ rUnclaimed.tax := by
  constructor
  · norm_num [subtotalOf, jsSum, rUnclaimed]
  · norm_num [participantTotals, subtotalOf, itemCostOf, jsSum, aget, pget, lookupKey,
      List.enum, List.enumFrom, rUnclaimed]

/-- Claim C2 (amended): when the subtotal is positive, the sum of the
computed tax portions equals `(sum of itemsTotals / subtotal) * tax` — and
hence equals the receipt tax exactly when the participants itemsTotals sum
to the whole subtotal (for example when every item is claimed); when the
subtotal is zero, every participant tax portion is 0. -/
theorem claim2_amended_tax_sum (r : Receipt) (M : AMap) (names : List String) :
    (0 < subtotalOf r →
      jsSum ((participantTotals r M names).map (fun e => e.taxPortion))
        = jsSum ((participantTotals r M names).map (fun e => e.itemsTotal))
            / subtotalOf r * r.tax) ∧
    (0 < subtotalOf r →
      jsSum ((participantTotals r M names).map (fun e => e.itemsTotal)) = subtotalOf r →
      jsSum ((participantTotals r M names).map (fun e => e.taxPortion)) = r.tax) ∧
    (subtotalOf r = 0 →
      ∀ e ∈ participantTotals r M names, e.taxPortion = 0) := by
  refine ⟨fun hs => taxPortions_sum r M names hs, fun hs hsum => ?_, fun hs e he => ?_⟩
  · rw [taxPortions_sum r M names hs, hsum, div_self (ne_of_gt hs), one_mul]
  · simp only [participantTotals] at he
    rcases List.mem_map.1 he with ⟨pe, hpe, rfl⟩
    simp only [hs, gt_iff_lt, lt_self_iff_false, if_false]

theorem claim2_witness :
    jsSum ((participantTotals rUnclaimed [] ["A"]).map (fun e => e.taxPortion))
      = jsSum ((participantTotals rUnclaimed [] ["A"]).map (fun e => e.itemsTotal))
          / subtotalOf rUnclaimed * rUnclaimed.tax :=
  (claim2_amended_tax_sum rUnclaimed [] ["A"]).1 (by norm_num [subtotalOf, jsSum, rUnclaimed])

/-- Claim C9: with at least two participants, removing participant k
splices the name list and rebuilds the assignment map exactly into the
counterfactual state in which k never existed (entries for k dropped,
higher participant indices shifted down, lower ones untouched), so the
allocation computed after removal is identical to the allocation of that
counterfactual state for every remaining participant. -/
theorem claim9_remove_participant_counterfactual (r : Receipt) (names : List String)
    (M : AMap) (k : ℕ) (h2 : 1 < names.length) :
    removeParticipant k names M = (names.eraseIdx k, specDropParticipant k M) ∧
    participantTotals r (removeParticipant k names M).2 (removeParticipant k names M).1
      = participantTotals r (specDropParticipant k M) (names.eraseIdx k) := by
  have hmap : (fun pq : ℕ × ℚ =>
      if pq.1 ≠ k then some ((if pq.1 > k then pq.1 - 1 else pq.1), pq.2) else none)
      = (fun pq : ℕ × ℚ =>
      if pq.1 = k then none else if k < pq.1 then some (pq.1 - 1, pq.2) else some pq) := by
    funext pq
    by_cases h : pq.1 = k
    · simp [h]
    · by_cases h' : k < pq.1
      · simp [h, h', gt_iff_lt]
      · simp [h, h', gt_iff_lt]
  have h1 : removeParticipant k names M = (names.eraseIdx k, specDropParticipant k M) := by
    simp only [removeParticipant, if_pos h2, specDropParticipant, hmap]
  exact ⟨h1, by rw [h1]⟩

theorem claim9_witness :
    removeParticipant 0 ["A", "B"] [(0, [(0, 1), (1, 2)])]
      = (["A", "B"].eraseIdx 0, specDropParticipant 0 [(0, [(0, 1), (1, 2)])]) ∧
    participantTotals ⟨[⟨"Pizza", 1, 10⟩], 0, 10⟩
        (removeParticipant 0 ["A", "B"] [(0, [(0, 1), (1, 2)])]).2
        (removeParticipant 0 ["A", "B"] [(0, [(0, 1), (1, 2)])]).1
      = participantTotals ⟨[⟨"Pizza", 1, 10⟩], 0, 10⟩
          (specDropParticipant 0 [(0, [(0, 1), (1, 2)])]) (["A", "B"].eraseIdx 0) :=
  claim9_remove_participant_counterfactual ⟨[⟨"Pizza", 1, 10⟩], 0, 10⟩
    ["A", "B"] [(0, [(0, 1), (1, 2)])] 0 (by decide)

/-- Claim C10: when exactly one participant slot remains,
`removeParticipant` is a no-op for every index: the guard
`participants.length > 1` fails, so the name list and the assignment map
are both left unchanged. -/
theorem claim10_last_participant_kept (names : List String) (M : AMap) (k : ℕ)
    (h : names.length = 1) :
    removeParticipant k names M = (names, M) := by
  simp [removeParticipant, h]

theorem claim10_witness :
    removeParticipant 5 ["A"] [(0, [(0, 1)])] = (["A"], [(0, [(0, 1)])]) ∧
    removeParticipant 0 ["A"] [(0, [(0, 1)])] = (["A"], [(0, [(0, 1)])]) :=
  ⟨claim10_last_participant_kept ["A"] [(0, [(0, 1)])] 5 (by decide),
   claim10_last_participant_kept ["A"] [(0, [(0, 1)])] 0 (by decide)⟩


def rPizza : Receipt := ⟨[⟨"Pizza", 1, 10⟩], 0, 10⟩

def mBlankFirst : AMap := [(0, [(0, 1)])]

def mThreeWay : AMap := [(0, [(0, 1), (1, 1), (2, 1)])]

/-- Claim C3 is false as stated: with participants `["", "A"]` and a share
of 1 stored for participant index 0 on the only item, the live preview
computes 10 of money for the blank-named slot (no filtering), and the final
settlement gives "A" an itemsTotal of 10 by looking the share up at "A"
position in the filtered list (index 0) rather than at its original index 1. -/
theorem claim3_counterexample :
    ((participantTotals rPizza mBlankFirst ["", "A"]).map (fun e => (e.name, e.itemsTotal))
      = [("", 10), ("A", 0)]) ∧
    ((calculateSplit rPizza mBlankFirst ["", "A"]).map (fun res =>
        res.participants.map (fun e => (e.name, e.itemsTotal)))
      = some [("A", 10)]) := by
  have ht1 : jsTrim "" = "" := rfl
  have ht2 : jsTrim "A" = "A" := rfl
  constructor
  · norm_num [participantTotals, subtotalOf, itemCostOf, jsSum, aget, pget, lookupKey,
      List.enum, List.enumFrom, rPizza, mBlankFirst, ht1, ht2]
  · norm_num [calculateSplit, subtotalOf, itemCostOf, jsSum, aget, pget,
      lookupKey, List.enum, List.enumFrom, rPizza, mBlankFirst, ht1, ht2, round2, jsRound,
      List.filter_cons]
    exact ⟨_, ⟨by decide, rfl⟩, rfl⟩

/-- Claim C3 (amended): the live preview `participantTotals` produces one
money entry per participant slot, blank names included, with shares looked
up at original indices; the final settlement `calculateSplit` computes
money only for trim-nonempty participants but looks their shares up by
position in the filtered list — it equals the per-field rounding of the
live preview run on the filtered name list. -/
theorem claim3_amended_filtering (r : Receipt) (M : AMap) (names : List String)
    (hne : (names.filter (fun p => jsTrim p ≠ "")).isEmpty = false) :
    (participantTotals r M names).length = names.length ∧
    (calculateSplit r M names).map (fun res =>
        res.participants.map (fun e => (e.name, e.itemsTotal, e.taxPortion, e.total)))
      = some ((participantTotals r M (names.filter (fun p => jsTrim p ≠ ""))).map
          (fun e => (e.name, round2 e.itemsTotal, round2 e.taxPortion, round2 e.total))) :=
  ⟨participantTotals_length r M names, calculateSplit_proj r M names hne⟩

theorem claim3_witness :
    (participantTotals rPizza mBlankFirst ["", "A"]).length = (["", "A"] : List String).length ∧
    (calculateSplit rPizza mBlankFirst ["", "A"]).map (fun res =>
        res.participants.map (fun e => (e.name, e.itemsTotal, e.taxPortion, e.total)))
      = some ((participantTotals rPizza mBlankFirst
            ((["", "A"] : List String).filter (fun p => jsTrim p ≠ ""))).map
          (fun e => (e.name, round2 e.itemsTotal, round2 e.taxPortion, round2 e.total))) :=
  claim3_amended_filtering rPizza mBlankFirst ["", "A"] (by decide)


theorem round2_zero : round2 0 = 0 := by norm_num [round2, jsRound]

/-- Claim C4: an item whose total assigned quantity is zero contributes a
cost of 0 to every participant (its cost is lost, not redistributed); and
for the receipt with the single item (quantity 1, price 15), tax 5, total
20 and an empty assignment map, every settled participant has itemsTotal,
taxPortion and total equal to 0, the split total is 0, and the original
total stays 20. -/
theorem claim4_unclaimed_item_lost :
    (∀ (item : ReceiptItem) (a : PMap) (p : ℕ),
        jsSum (a.map Prod.snd) = 0 → itemCostOf item a p = 0) ∧
    (∀ names : List String, (names.filter (fun p => jsTrim p ≠ "")).isEmpty = false →
        ∃ res, calculateSplit rUnclaimed [] names = some res ∧
          (∀ e ∈ res.participants,
            e.itemsTotal = 0 ∧ e.taxPortion = 0 ∧ e.total = 0) ∧
          res.splitTotal = 0 ∧ res.originalTotal = 20) := by
  constructor
  · intro item a p h
    simp only [itemCostOf]
    split_ifs with h1 h2
    · exact absurd (h ▸ h2) (lt_irrefl 0)
    · rfl
    · rfl
  · intro names hne
    have hIT : ∀ pIdx : ℕ,
        jsSum (rUnclaimed.items.enum.map
          (fun ie => itemCostOf ie.2 (aget ([] : AMap) ie.1) pIdx)) = 0 := by
      intro pIdx
      norm_num [rUnclaimed, List.enum, List.enumFrom, jsSum, itemCostOf, pget, aget,
        lookupKey]
    simp only [calculateSplit, hne, Bool.false_eq_true, if_false]
    refine ⟨_, rfl, ?_, ?_, ?_⟩
    · intro e he
      rcases List.mem_map.1 he with ⟨pe, _, rfl⟩
      refine ⟨?_, ?_, ?_⟩
      · show round2 _ = 0
        rw [hIT pe.1, round2_zero]
      · show round2 _ = 0
        rw [hIT pe.1]
        simp [round2_zero]
      · show round2 _ = 0
        rw [hIT pe.1]
        simp [round2_zero]
    · show jsSum _ = 0
      rw [List.map_map]
      rw [jsSum_map_congr _ _ (fun _ => (0 : ℚ)) ?_, jsSum_map_zero]
      intro pe _
      show round2 _ = 0
      rw [hIT pe.1]
      simp [round2_zero]
    · rfl

theorem claim4_witness :
    ∃ res, calculateSplit rUnclaimed [] ["A"] = some res ∧
      (∀ e ∈ res.participants,
        e.itemsTotal = 0 ∧ e.taxPortion = 0 ∧ e.total = 0) ∧
      res.splitTotal = 0 ∧ res.originalTotal = 20 :=
  claim4_unclaimed_item_lost.2 ["A"] (by decide)


/-- Claim C5: in the final settlement the split total is the sum of the
already-rounded participant totals, and each money field is the
two-decimal rounding of the corresponding unrounded preview quantity,
rounded independently per field; concretely, one 10.00 item split equally
three ways gives each participant a rounded total of 3.33 and a split
total of 9.99, different from the original total 10 — the drift is
surfaced, not redistributed. -/
theorem claim5_rounding_drift :
    (∀ (r : Receipt) (M : AMap) (ps : List String),
        (calculateSplit r M ps).map (fun res => res.splitTotal)
          = (calculateSplit r M ps).map (fun res =>
              jsSum (res.participants.map (fun e => e.total)))) ∧
    (∀ (r : Receipt) (M : AMap) (ps : List String),
        (ps.filter (fun p => jsTrim p ≠ "")).isEmpty = false →
        (calculateSplit r M ps).map (fun res =>
            res.participants.map (fun e => (e.name, e.itemsTotal, e.taxPortion, e.total)))
          = some ((participantTotals r M (ps.filter (fun p => jsTrim p ≠ ""))).map
              (fun e => (e.name, round2 e.itemsTotal, round2 e.taxPortion, round2 e.total)))) ∧
    ((calculateSplit rPizza mThreeWay ["A", "B", "C"]).map (fun res =>
        (res.participants.map (fun e => e.total), res.splitTotal, res.originalTotal))
      = some ([333/100, 333/100, 333/100], 999/100, 10)) ∧
    (999 : ℚ)/100 ≠ 10 := by
  refine ⟨calculateSplit_splitTotal, fun r M ps hne => calculateSplit_proj r M ps hne,
    ?_, by norm_num⟩
  have ht : jsTrim "A" = "A" := rfl
  have ht2 : jsTrim "B" = "B" := rfl
  have ht3 : jsTrim "C" = "C" := rfl
  norm_num [calculateSplit, subtotalOf, itemCostOf, jsSum, aget, pget,
    lookupKey, List.enum, List.enumFrom, rPizza, mThreeWay, ht, ht2, ht3, round2, jsRound,
    List.filter_cons]
  exact ⟨_, ⟨by decide, rfl⟩, rfl, rfl, rfl⟩

theorem claim5_witness :
    (calculateSplit rPizza mThreeWay ["A", "B", "C"]).map (fun res =>
        res.participants.map (fun e => (e.name, e.itemsTotal, e.taxPortion, e.total)))
      = some ((participantTotals rPizza mThreeWay
            ((["A", "B", "C"] : List String).filter (fun p => jsTrim p ≠ ""))).map
          (fun e => (e.name, round2 e.itemsTotal, round2 e.taxPortion, round2 e.total))) :=
  claim5_rounding_drift.2.1 rPizza mThreeWay ["A", "B", "C"] (by decide)


/-- Claim C6: after any finite sequence of assign / increase / decrease /
unassign operations starting from the empty assignment map, every stored
share is strictly positive (never a stored zero); decrease on an entry
whose share is 1 deletes the entry, so the subsequent lookup returns
absent, while decrease on an entry with share q > 1 stores exactly q - 1. -/
theorem claim6_positive_shares :
    (∀ ops : List AssignOp, StoredPositive (runOps ops)) ∧
    (∀ (M : AMap) (a : PMap) (i p : ℕ),
        lookupKey M i = some a → lookupKey a p = some 1 →
        lookupKey (aget (decreaseItemQuantity i p M) i) p = none) ∧
    (∀ (M : AMap) (a : PMap) (i p : ℕ) (q : ℚ),
        lookupKey M i = some a → lookupKey a p = some q → 1 < q →
        lookupKey (aget (decreaseItemQuantity i p M) i) p = some (q - 1)) := by
  refine ⟨fun ops => storedPositive_foldl ops [] (fun ia h => absurd h (by simp)), ?_, ?_⟩
  · intro M a i p hM hp
    rw [decrease_of_lookupKey_some p hM]
    have hq : pget a p = 1 := by simp [pget, hp]
    rw [hq, if_neg (by norm_num), if_pos rfl]
    rw [show aget (setKey M i (eraseKey a p)) i = eraseKey a p from by
      simp [aget, lookupKey_setKey_self]]
    exact lookupKey_eraseKey_self a p
  · intro M a i p q hM hp hq1
    rw [decrease_of_lookupKey_some p hM]
    have hq : pget a p = q := by simp [pget, hp]
    rw [hq, if_pos hq1]
    rw [show aget (setKey M i (setKey a p (q - 1))) i = setKey a p (q - 1) from by
      simp [aget, lookupKey_setKey_self]]
    exact lookupKey_setKey_self a p (q - 1)

theorem claim6_witness :
    StoredPositive (runOps [.assign 0 0, .increase 0 1, .decrease 0 1]) ∧
    lookupKey (aget (decreaseItemQuantity 0 0 [(0, [(0, 1)])]) 0) 0 = none ∧
    lookupKey (aget (decreaseItemQuantity 0 0 [(0, [(0, 3)])]) 0) 0 = some (3 - 1) :=
  ⟨claim6_positive_shares.1 [.assign 0 0, .increase 0 1, .decrease 0 1],
   claim6_positive_shares.2.1 [(0, [(0, 1)])] [(0, 1)] 0 0 rfl rfl,
   claim6_positive_shares.2.2 [(0, [(0, 3)])] [(0, 3)] 0 0 3 rfl rfl (by decide)⟩

/-- Claim C7: assign on a pair that already has a positive share leaves
the whole map unchanged (idempotent, never increases a share); unassign on
a pair with no stored entry leaves the map unchanged (keys are
duplicate-free as in any JS object); and a fresh assign on an unassigned
pair stores a share of exactly 1. -/
theorem claim7_assign_unassign (M : AMap) (i p : ℕ) :
    (0 < pget (aget M i) p → assignItemToSelected i p M = M) ∧
    ((M.map Prod.fst).Nodup → lookupKey (aget M i) p = none →
      removeAssignment i p M = M) ∧
    (lookupKey (aget M i) p = none →
      lookupKey (aget (assignItemToSelected i p M) i) p = some 1) := by
  refine ⟨?_, ?_, ?_⟩
  · intro h
    have hsome : (lookupKey M i).isSome = true := by
      cases hl : lookupKey M i with
      | none =>
        rw [aget, hl] at h
        simp [pget, lookupKey] at h
      | some a => rfl
    simp only [assignItemToSelected, hsome, if_true]
    rw [if_neg (ne_of_gt h)]
  · intro hnd hlk
    cases hl : lookupKey M i with
    | none => rw [unassign_of_lookupKey_none p hl]
    | some a =>
      rw [unassign_of_lookupKey_some p hl]
      have ha : aget M i = a := by simp [aget, hl]
      rw [ha] at hlk
      rw [eraseKey_of_lookupKey_none hlk]
      exact setKey_lookupKey_eq hnd hl
  · intro hlk
    cases hl : lookupKey M i with
    | none =>
      have h0 : aget (setKey M i []) i = ([] : PMap) := by
        simp [aget, lookupKey_setKey_self]
      simp only [assignItemToSelected, hl, Option.isSome_none, Bool.false_eq_true,
        if_false, h0]
      rw [show pget ([] : PMap) p = 0 from rfl, if_pos rfl]
      rw [show aget (setKey (setKey M i []) i (setKey ([] : PMap) p 1)) i
          = setKey ([] : PMap) p 1 from by simp [aget, lookupKey_setKey_self]]
      exact lookupKey_setKey_self [] p 1
    | some a =>
      have hsome : (lookupKey M i).isSome = true := by rw [hl]; rfl
      have ha : aget M i = a := by simp [aget, hl]
      have hz : pget (aget M i) p = 0 := by
        rw [ha] at hlk ⊢
        simp [pget, hlk]
      simp only [assignItemToSelected, hsome, if_true, hz]
      rw [show aget (setKey M i (setKey (aget M i) p 1)) i
          = setKey (aget M i) p 1 from by simp [aget, lookupKey_setKey_self]]
      exact lookupKey_setKey_self (aget M i) p 1

theorem claim7_witness :
    assignItemToSelected 0 0 [(0, [(0, 2)])] = [(0, [(0, 2)])] ∧
    removeAssignment 0 1 [(0, [(0, 2)])] = [(0, [(0, 2)])] ∧
    lookupKey (aget (assignItemToSelected 0 0 ([] : AMap)) 0) 0 = some 1 :=
  ⟨(claim7_assign_unassign [(0, [(0, 2)])] 0 0).1 (by decide),
   (claim7_assign_unassign [(0, [(0, 2)])] 0 1).2.1 (by decide) (by decide),
   (claim7_assign_unassign ([] : AMap) 0 0).2.2 rfl⟩


/-- Claim C8: for an in-bounds item index, the quantity setter is a no-op
on a NaN parse or a value `<= 0` and otherwise updates the quantity and
recomputes the total to `sum(price * quantity) + tax`; the price setter
rejects exactly the negative values, and the tax setter rejects exactly
the negative values, each recomputing the total the same way on success. -/
theorem claim8_setters_validation (r : Receipt) (index : ℕ) (item : ReceiptItem)
    (hidx : r.items.get? index = some item) :
    (updateItemQuantity r index none = r) ∧
    (∀ q : ℚ, q ≤ 0 → updateItemQuantity r index (some q) = r) ∧
    (∀ q : ℚ, 0 < q →
        updateItemQuantity r index (some q)
          = { items := r.items.set index { item with quantity := q },
              tax := r.tax,
              total := jsSum ((r.items.set index { item with quantity := q }).map
                  (fun it => it.price * it.quantity)) + r.tax }) ∧
    (updateItemPrice r index none = r) ∧
    (∀ q : ℚ, q < 0 → updateItemPrice r index (some q) = r) ∧
    (∀ q : ℚ, 0 ≤ q →
        updateItemPrice r index (some q)
          = { items := r.items.set index { item with price := q },
              tax := r.tax,
              total := jsSum ((r.items.set index { item with price := q }).map
                  (fun it => it.price * it.quantity)) + r.tax }) ∧
    (updateTax r none = r) ∧
    (∀ t : ℚ, t < 0 → updateTax r (some t) = r) ∧
    (∀ t : ℚ, 0 ≤ t →
        updateTax r (some t)
          = { items := r.items, tax := t, total := subtotalOf r + t }) := by
  refine ⟨?_, ?_, ?_, ?_, ?_, ?_, ?_, ?_, ?_⟩
  · simp only [updateItemQuantity]
    rw [hidx]
  · intro q hq
    simp only [updateItemQuantity]
    rw [hidx]
    exact if_neg (not_lt.2 hq)
  · intro q hq
    simp only [updateItemQuantity]
    rw [hidx]
    dsimp only
    rw [if_pos (show q > 0 from hq)]
    rfl
  · simp only [updateItemPrice]
    rw [hidx]
  · intro q hq
    simp only [updateItemPrice]
    rw [hidx]
    exact if_neg (not_le.2 hq)
  · intro q hq
    simp only [updateItemPrice]
    rw [hidx]
    dsimp only
    rw [if_pos (show q ≥ 0 from hq)]
    rfl
  · simp [updateTax]
  · intro t ht
    simp [updateTax, not_le.2 ht]
  · intro t ht
    simp only [updateTax, ge_iff_le, if_pos ht]
    rfl

def rEdit : Receipt := ⟨[⟨"x", 2, 5⟩], 1, 11⟩

theorem claim8_witness :
    updateItemQuantity rEdit 0 none = rEdit ∧
    updateItemQuantity rEdit 0 (some (-3)) = rEdit ∧
    updateItemQuantity rEdit 0 (some 4)
      = { items := rEdit.items.set 0 { (⟨"x", 2, 5⟩ : ReceiptItem) with quantity := 4 },
          tax := rEdit.tax,
          total := jsSum ((rEdit.items.set 0
              { (⟨"x", 2, 5⟩ : ReceiptItem) with quantity := 4 }).map
              (fun it => it.price * it.quantity)) + rEdit.tax } ∧
    updateItemPrice rEdit 0 (some (-1)) = rEdit ∧
    updateTax rEdit (some 2) = { items := rEdit.items, tax := 2, total := subtotalOf rEdit + 2 } :=
  ⟨(claim8_setters_validation rEdit 0 ⟨"x", 2, 5⟩ rfl).1,
   (claim8_setters_validation rEdit 0 ⟨"x", 2, 5⟩ rfl).2.1 (-3) (by decide),
   (claim8_setters_validation rEdit 0 ⟨"x", 2, 5⟩ rfl).2.2.1 4 (by decide),
   (claim8_setters_validation rEdit 0 ⟨"x", 2, 5⟩ rfl).2.2.2.2.1 (-1) (by decide),
   (claim8_setters_validation rEdit 0 ⟨"x", 2, 5⟩ rfl).2.2.2.2.2.2.2.2 2 (by decide)⟩

end SplitBill
